import Mathlib

/-!
Shallow embedding of the audio preprocessing pipeline of the wildlife
audio-monitoring web application.

Embedded source functions:
* `AudioProcessor.resampleAudio`      → `resampleAudio`
* `AudioProcessor.normalizeAudioLength` → `normalizeAudioLength`
* `AudioProcessor.audioBufferToWav` (PCM sample payload) → `audioBufferToWavData`
* `ModelLoader.extractFeatures`       → `extractFeatures` and its step functions

JavaScript numbers are modelled as exact rationals, with `none : Option ℚ`
standing for a non-finite double (`NaN`, `±Infinity` arising from a division
by zero, or the `NaN` produced by reading an out-of-range array index).
Transcendental platform functions (`Math.cos`, `Math.log10`, the constant
`Math.PI`) and the external FFT library (`fft.js`) are abstract parameters:
none of the verified properties depend on their values.
-/

/-- Model of a JavaScript number in this pipeline: `some q` is a finite
double (idealised as an exact rational), `none` is a non-finite value
(`NaN` or an infinity). -/
abbrev JSNum := Option ℚ

/-- JS addition; non-finite values propagate. -/
def jadd : JSNum → JSNum → JSNum
  | some a, some b => some (a + b)
  | _, _ => none

/-- JS subtraction; non-finite values propagate. -/
def jsub : JSNum → JSNum → JSNum
  | some a, some b => some (a - b)
  | _, _ => none

/-- JS multiplication; non-finite values propagate. -/
def jmul : JSNum → JSNum → JSNum
  | some a, some b => some (a * b)
  | _, _ => none

/-- JS division: division by zero yields a non-finite value (`0/0 = NaN`,
`x/0 = ±Infinity`), modelled as `none`; non-finite operands propagate. -/
def jdiv : JSNum → JSNum → JSNum
  | some a, some b => if b = 0 then none else some (a / b)
  | _, _ => none

/-- `Math.min` on two values: `NaN` if either operand is `NaN`. -/
def jmin : JSNum → JSNum → JSNum
  | some a, some b => some (min a b)
  | _, _ => none

/-- `Math.max` on two values: `NaN` if either operand is `NaN`. -/
def jmax : JSNum → JSNum → JSNum
  | some a, some b => some (max a b)
  | _, _ => none

/-- `Math.round` for a finite non-negative argument: round half toward
positive infinity, i.e. `⌊q + 1/2⌋`. -/
def jsRound (q : ℚ) : ℤ := ⌊q + 1 / 2⌋

/-- Truncation toward zero, the conversion JavaScript applies when a number
is stored into an `Int16Array` element (`ToIntegerOrInfinity`). -/
def ratTrunc (q : ℚ) : ℤ := if 0 ≤ q then ⌊q⌋ else ⌈q⌉

/-- Model of a Web Audio `AudioBuffer`: a sample rate, a frame count
(`AudioBuffer.length`) and the per-channel sample data. -/
structure AudioBuffer where
  sampleRate : ℕ
  length : ℕ
  channels : List (List ℚ)

/-- A buffer is well formed when it has at least one channel and every
channel holds exactly `length` samples (the Web Audio API guarantees both). -/
def wellFormed (b : AudioBuffer) : Prop :=
  b.channels ≠ [] ∧ ∀ c ∈ b.channels, c.length = b.length

/-- `AudioProcessor.resampleAudio`: linear-interpolation resampling of the
first channel to `targetRate`.  Fast path: when the rates are equal the
first channel is returned as is.  Otherwise the output length is
`Math.round(originalLength * targetRate / originalSampleRate)` and each
output sample linearly interpolates `channelData` at position
`i * originalSampleRate / targetRate`, using the last sample verbatim once
the floor index reaches `originalLength - 1`. -/
def resampleAudio (buf : AudioBuffer) (targetRate : ℕ) : List ℚ :=
  if buf.sampleRate = targetRate then buf.channels.getD 0 []
  else
    let targetLength := (jsRound ((buf.length : ℚ) * (targetRate : ℚ) / (buf.sampleRate : ℚ))).toNat
    let channelData := buf.channels.getD 0 []
    (List.range targetLength).map (fun (i : ℕ) =>
      let position : ℚ := (i : ℚ) * ((buf.sampleRate : ℚ) / (targetRate : ℚ))
      let index : ℤ := ⌊position⌋
      let fraction : ℚ := position - (index : ℚ)
      if (buf.length : ℤ) - 1 ≤ index then channelData.getD (buf.length - 1) 0
      else channelData.getD index.toNat 0 * (1 - fraction) +
           channelData.getD (index.toNat + 1) 0 * fraction)

/-- `Math.floor(sampleRate * targetDuration)`: the target sample count of
`AudioProcessor.normalizeAudioLength`. -/
def targetLengthOf (sampleRate : ℕ) (targetDuration : ℚ) : ℕ :=
  (⌊(sampleRate : ℚ) * targetDuration⌋).toNat

/-- One `result.set(src, off)` store into a fixed-length buffer:
overwrites `src.length` elements starting at `off`. -/
def setAt (arr src : List ℚ) (off : ℕ) : List ℚ :=
  arr.take off ++ src ++ arr.drop (off + src.length)

/-- The padding branch of `normalizeAudioLength`: allocate `tl` zeros, copy
the source once at offset 0, then tile copies at offsets `i * audio.length`
for `i = 1 .. reps - 1`, the last copy truncated to fit. -/
def padLoop (audio : List ℚ) (tl reps : ℕ) : List ℚ :=
  (List.range (reps - 1)).foldl
    (fun res k =>
      let i := k + 1
      let off := i * audio.length
      let cl := min audio.length (tl - off)
      if 0 < cl then setAt res (audio.take cl) off else res)
    (setAt (List.replicate tl 0) audio 0)

/-- `Math.ceil(tl / len)`, the tile count of the padding branch: for an
empty source this is `Math.ceil(Infinity) = Infinity` and the JS `for` loop
bounded by it never terminates, modelled as `none`. -/
def jsRepeats (tl len : ℕ) : Option ℕ :=
  if len = 0 then none else some (⌈(tl : ℚ) / (len : ℚ)⌉.toNat)

/-- `AudioProcessor.normalizeAudioLength`.  `randOffset` is the
`Math.floor(Math.random() * maxOffset)` value chosen in the truncation
branch, made an explicit parameter.  The result is `none` exactly when the
JS function does not return (the unbounded tiling loop on an empty input). -/
def normalizeAudioLength (audio : List ℚ) (sampleRate : ℕ) (targetDuration : ℚ)
    (randOffset : ℕ) : Option (List ℚ) :=
  let tl := targetLengthOf sampleRate targetDuration
  if audio.length < tl then
    match jsRepeats tl audio.length with
    | none => none
    | some reps => some (padLoop audio tl reps)
  else if tl < audio.length then
    some ((audio.drop randOffset).take tl)
  else some audio

/-- The 16-bit sample conversion of `audioBufferToWav`:
`Math.max(-1, Math.min(1, sample)) * 0x7FFF`, then the implicit
truncation toward zero performed by the `Int16Array` element store. -/
def wavSample (x : ℚ) : ℤ := ratTrunc (max (-1) (min 1 x) * 32767)

/-- The PCM sample payload (the `data` `Int16Array`) built by
`AudioProcessor.audioBufferToWav`.  The array holds
`length * numberOfChannels` elements; the stereo branch interleaves the two
channels, every other branch writes only channel 0 into the first `length`
slots, leaving the remainder at the zero initialisation. -/
def audioBufferToWavData (buf : AudioBuffer) : List ℤ :=
  let n := buf.length
  if buf.channels.length = 2 then
    (List.range n).flatMap (fun i =>
      [wavSample ((buf.channels.getD 0 []).getD i 0),
       wavSample ((buf.channels.getD 1 []).getD i 0)])
  else
    (List.range n).map (fun i => wavSample ((buf.channels.getD 0 []).getD i 0)) ++
      List.replicate (n * buf.channels.length - n) 0

/-- Reference interleaving of already-converted per-channel sample lists in
channel order, as the specification describes the WAV payload. -/
def interleaveChannels (n : ℕ) (chs : List (List ℤ)) : List ℤ :=
  (List.range n).flatMap (fun i => chs.map (fun c => c.getD i 0))

/-- `Math.floor((audioData.length - n_fft) / hop_length) + 1`, the frame
count of `extractFeatures`, computed in JS double arithmetic (so it can be
negative; with `hop = 0` it is non-finite and handled by the caller). -/
def numFramesJS (len n_fft hop : ℕ) : ℤ :=
  ⌊((len : ℚ) - (n_fft : ℚ)) / (hop : ℚ)⌋ + 1

/-- One frame of `extractFeatures`: slice `n_fft` samples starting at
`i * hop` (zero-padded past the end of the signal), then multiply each
sample by the Hann coefficient `0.5 * (1 - Math.cos(2π j / (n_fft - 1)))`.
`cosF` abstracts `Math.cos`, `piQ` the double `Math.PI`. -/
def hannWindowedFrame (cosF : ℚ → ℚ) (piQ : ℚ) (audioData : List ℚ)
    (n_fft hop i : ℕ) : List JSNum :=
  let frameData := (audioData.drop (i * hop)).take n_fft
  (List.range n_fft).map (fun j =>
    jmul (some (frameData.getD j 0))
      (jmul (some (1 / 2))
        (jsub (some 1)
          (Option.map cosF (jdiv (some (2 * piQ * (j : ℚ))) (some ((n_fft : ℚ) - 1)))))))

/-- Power spectrum of one frame: `fftF` abstracts the external FFT library
(`fft.realTransform` output, interleaved real/imaginary parts); bin `j` is
`(re² + im²) / n_fft` over the first `n_fft / 2` bins. -/
def powerSpectrumOf (fftF : List JSNum → List JSNum) (windowed : List JSNum)
    (n_fft : ℕ) : List JSNum :=
  let fftOutput := fftF windowed
  (List.range (n_fft / 2)).map (fun j =>
    jdiv
      (jadd (jmul (fftOutput.getD (2 * j) none) (fftOutput.getD (2 * j) none))
            (jmul (fftOutput.getD (2 * j + 1) none) (fftOutput.getD (2 * j + 1) none)))
      (some (n_fft : ℚ)))

/-- Band aggregation and log compression of one frame: band `mel_i`
averages the power bins in `[⌊mel_i * bins / n_mels⌋, ⌊(mel_i+1) * bins / n_mels⌋)`
that are in range (0 when no bin is), then is replaced by
`10 * Math.log10(Math.max(1e-10, value))`.  `lg` abstracts `Math.log10`. -/
def melFrameOf (lg : ℚ → ℚ) (ps : List JSNum) (n_fft n_mels : ℕ) : List JSNum :=
  let fftBins : ℚ := ((n_fft / 2 : ℕ) : ℚ)
  (List.range n_mels).map (fun (mel_i : ℕ) =>
    let melStart : ℚ := (mel_i : ℚ) * (fftBins / (n_mels : ℚ))
    let melEnd : ℚ := ((mel_i : ℚ) + 1) * (fftBins / (n_mels : ℚ))
    let lo := (⌊melStart⌋).toNat
    let hi := (⌊melEnd⌋).toNat
    let bins := (List.range' lo (hi - lo)).filter (fun b => b < ps.length)
    let s := bins.foldl (fun acc b => jadd acc (ps.getD b none)) (some 0)
    let melVal := if 0 < bins.length then jdiv s (some (bins.length : ℚ)) else some 0
    jmul (some 10) (Option.map lg (jmax (some (1 / 10 ^ 10)) melVal)))

/-- Transposition of the `numFrames × n_mels` spectrogram to
`n_mels × numFrames` (bands on the first axis); out-of-range reads give
`undefined`, i.e. a non-finite value. -/
def transposeStep (n_mels numFrames : ℕ) (mel : List (List JSNum)) : List (List JSNum) :=
  (List.range n_mels).map (fun i =>
    (List.range numFrames).map (fun j => (mel.getD j []).getD i none))

/-- The running minimum of the min/max scan: the accumulator starts at
`Infinity` (`none` of the outer option), the first value replaces it, and a
`NaN` value poisons the rest of the scan — exactly `Math.min`'s behaviour. -/
def jsMinOf (m : List (List JSNum)) : JSNum :=
  (m.flatten.foldl
    (fun acc v => match acc with | none => some v | some a => some (jmin a v)) none).getD none

/-- The running maximum over all cells, starting from `-Infinity`. -/
def jsMaxOf (m : List (List JSNum)) : JSNum :=
  (m.flatten.foldl
    (fun acc v => match acc with | none => some v | some a => some (jmax a v)) none).getD none

/-- The global min-max normalisation of `extractFeatures` (source step 6):
one scalar min and one scalar max over the whole matrix, every cell mapped
to `(x - min) / (max - min)` with no guard on `max == min`. -/
def normalizeStep (m : List (List JSNum)) : List (List JSNum) :=
  let mn := jsMinOf m
  let mx := jsMaxOf m
  m.map (fun row => row.map (fun x => jdiv (jsub x mn) (jsub mx mn)))

/-- A JS read `row[i]` with a possibly negative or out-of-range index:
`undefined`, i.e. non-finite, outside `[0, row.length)`. -/
def getI (row : List JSNum) (i : ℤ) : JSNum :=
  if 0 ≤ i ∧ i < (row.length : ℤ) then row.getD i.toNat none else none

/-- The time-axis resize of `extractFeatures` (source step 7): each target
index `j` samples source position `j * (srcLength - 1) / (target - 1)` and
linearly interpolates between the floor index and
`Math.min(floor + 1, srcLength - 1)`.  When `target = 1` the position is
`0/0 = NaN` and the cell is non-finite. -/
def resizeStep (m : List (List JSNum)) (target : ℕ) : List (List JSNum) :=
  m.map (fun row =>
    let srcLength : ℕ := row.length
    (List.range target).map (fun (j : ℕ) =>
      match jdiv (some ((j : ℚ) * ((srcLength : ℚ) - 1))) (some ((target : ℚ) - 1)) with
      | none => none
      | some srcIdx =>
        let f : ℤ := ⌊srcIdx⌋
        let c : ℤ := min (f + 1) ((srcLength : ℤ) - 1)
        let alpha : ℚ := srcIdx - (f : ℚ)
        jadd (jmul (some (1 - alpha)) (getI row f)) (jmul (some alpha) (getI row c))))

/-- `ModelLoader.extractFeatures` as a value-level computation: the result
is the `n_mels × targetTimeSteps` matrix that is flattened into the input
tensor.  `none` models a thrown runtime error: `hop = 0` or a negative
frame count makes an array length invalid, and an odd `n_fft` makes the
in-loop `new Array(n_fft / 2)` length fractional (the external FFT
constructor also rejects it). -/
def extractFeatures (cosF lg : ℚ → ℚ) (piQ : ℚ) (fftF : List JSNum → List JSNum)
    (audioData : List ℚ) (n_fft hop n_mels target : ℕ) : Option (List (List JSNum)) :=
  if hop = 0 then none
  else if numFramesJS audioData.length n_fft hop < 0 then none
  else if 0 < (numFramesJS audioData.length n_fft hop).toNat ∧ n_fft % 2 = 1 then none
  else
    let numFrames := (numFramesJS audioData.length n_fft hop).toNat
    let melSpectrogram := (List.range numFrames).map (fun i =>
      melFrameOf lg (powerSpectrumOf fftF (hannWindowedFrame cosF piQ audioData n_fft hop i) n_fft)
        n_fft n_mels)
    some (resizeStep (normalizeStep (transposeStep n_mels numFrames melSpectrogram)) target)

/-! ### Helper lemmas -/

theorem setAt_length (arr src : List ℚ) (off : ℕ) (h : off + src.length ≤ arr.length) :
    (setAt arr src off).length = arr.length := by
  simp only [setAt, List.length_append, List.length_take, List.length_drop]
  omega

theorem padLoop_length (audio : List ℚ) (tl reps : ℕ) (h : audio.length ≤ tl) :
    (padLoop audio tl reps).length = tl := by
  unfold padLoop
  have hinit : (setAt (List.replicate tl (0 : ℚ)) audio 0).length = tl := by
    rw [setAt_length _ _ _ (by simpa using h)]
    simp
  suffices H : ∀ (l : List ℕ) (res : List ℚ), res.length = tl →
      (l.foldl (fun res k =>
        let i := k + 1
        let off := i * audio.length
        let cl := min audio.length (tl - off)
        if 0 < cl then setAt res (audio.take cl) off else res) res).length = tl by
    exact H _ _ hinit
  intro l
  induction l with
  | nil => intro res hres; exact hres
  | cons a t ih =>
    intro res hres
    simp only [List.foldl_cons]
    apply ih
    by_cases hc : 0 < min audio.length (tl - (a + 1) * audio.length)
    · simp only [hc, if_true]
      rw [setAt_length]
      · exact hres
      · have h1 : (audio.take (min audio.length (tl - (a + 1) * audio.length))).length =
            min audio.length (tl - (a + 1) * audio.length) := by
          simp [List.length_take]
        rw [h1, hres]
        omega
    · simp only [hc, if_false]
      exact hres

theorem getD_map_of_lt {α β : Type} (f : α → β) (l : List α) (i : ℕ) (h : i < l.length)
    (d : β) (d0 : α) : (l.map f).getD i d = f (l.getD i d0) := by
  rw [List.getD_eq_getElem?_getD, List.getD_eq_getElem?_getD, List.getElem?_map,
    List.getElem?_eq_getElem h]
  simp

theorem flatMap_singleton_eq_map {α β : Type} (l : List α) (g : α → β) :
    (l.flatMap fun a => [g a]) = l.map g := by
  induction l with
  | nil => rfl
  | cons a t ih => simp [ih]

theorem flatMap_congr_mem {α β : Type} (l : List α) (f g : α → List β)
    (h : ∀ a ∈ l, f a = g a) : l.flatMap f = l.flatMap g := by
  induction l with
  | nil => rfl
  | cons a t ih =>
    simp only [List.flatMap_cons]
    rw [h a (by simp), ih (fun x hx => h x (by simp [hx]))]

theorem flatten_length_const {α : Type} (L : List (List α)) (t : ℕ)
    (h : ∀ r ∈ L, r.length = t) : L.flatten.length = L.length * t := by
  induction L with
  | nil => simp
  | cons a l ih =>
    simp only [List.flatten_cons, List.length_append, List.length_cons]
    rw [h a (by simp), ih (fun r hr => h r (by simp [hr])), Nat.succ_mul]
    omega

theorem floor_natCast_add_half (n : ℕ) : ⌊(n : ℚ) + 1 / 2⌋ = (n : ℤ) := by
  rw [Int.floor_eq_iff]
  constructor
  · push_cast; linarith
  · push_cast; linarith

theorem resampleAudio_length_aux (buf : AudioBuffer) (targetRate : ℕ)
    (hr : 0 < buf.sampleRate) (hwf : wellFormed buf) :
    (resampleAudio buf targetRate).length =
      (jsRound ((buf.length : ℚ) * (targetRate : ℚ) / (buf.sampleRate : ℚ))).toNat := by
  obtain ⟨hne, hlen⟩ := hwf
  unfold resampleAudio
  by_cases h : buf.sampleRate = targetRate
  · rw [if_pos h]
    have hc : buf.channels.getD 0 [] ∈ buf.channels := by
      cases hch : buf.channels with
      | nil => exact absurd hch hne
      | cons c t => simp [hch]
    rw [hlen _ hc, ← h]
    have hq : ((buf.sampleRate : ℚ)) ≠ 0 := by
      exact_mod_cast Nat.pos_iff_ne_zero.mp hr
    rw [mul_div_assoc, div_self hq, mul_one]
    unfold jsRound
    rw [floor_natCast_add_half]
    simp
  · rw [if_neg h]
    simp only [List.length_map, List.length_range]
/-! ### Claim theorems: resampling -/

/-- C7: for every well-formed buffer with a positive sample rate, the
output of `resampleAudio` has exactly
`Math.round(length * targetRate / sampleRate)` samples (on the fast path
this equals the input length, which agrees with the formula). -/
theorem resampleAudio_length (buf : AudioBuffer) (targetRate : ℕ)
    (hr : 0 < buf.sampleRate) (hwf : wellFormed buf) :
    (resampleAudio buf targetRate).length =
      (jsRound ((buf.length : ℚ) * (targetRate : ℚ) / (buf.sampleRate : ℚ))).toNat :=
  resampleAudio_length_aux buf targetRate hr hwf

/-- C7 witness: the specification's concrete scenario — a 1-second 8000 Hz
mono signal resampled to 16000 Hz yields exactly 16000 samples. -/
theorem resampleAudio_length_witness :
    0 < (AudioBuffer.mk 8000 8000 [List.replicate 8000 (0 : ℚ)]).sampleRate ∧
    wellFormed (AudioBuffer.mk 8000 8000 [List.replicate 8000 (0 : ℚ)]) ∧
    (resampleAudio (AudioBuffer.mk 8000 8000 [List.replicate 8000 (0 : ℚ)]) 16000).length = 16000 := by
  have hwf : wellFormed (AudioBuffer.mk 8000 8000 [List.replicate 8000 (0 : ℚ)]) := by
    constructor
    · exact List.cons_ne_nil _ _
    · intro c hc
      rw [List.mem_singleton] at hc
      subst hc
      exact List.length_replicate _ _
  refine ⟨by norm_num, hwf, ?_⟩
  rw [resampleAudio_length _ 16000 (by norm_num) hwf]
  norm_num [jsRound]
  rfl

/-- C9: when the target rate equals the buffer's own sample rate,
`resampleAudio` returns the first channel unchanged (no-op fast path). -/
theorem resampleAudio_identity (buf : AudioBuffer) (c : List ℚ) (rest : List (List ℚ))
    (hch : buf.channels = c :: rest) :
    resampleAudio buf buf.sampleRate = c := by
  unfold resampleAudio
  rw [if_pos rfl, hch]
  rfl

/-- C9 witness: the fast path on a concrete stereo buffer returns the first
channel as is. -/
theorem resampleAudio_identity_witness :
    (AudioBuffer.mk 16000 2 [[1, 2], [3, 4]]).channels = [(1 : ℚ), 2] :: [[3, 4]] ∧
    resampleAudio (AudioBuffer.mk 16000 2 [[1, 2], [3, 4]]) 16000 = [(1 : ℚ), 2] :=
  ⟨rfl, resampleAudio_identity _ [(1 : ℚ), 2] [[3, 4]] rfl⟩

/-- C6 counterexample: `resampleAudio` does not fail on the empty signal —
resampling an empty buffer across rates returns the empty signal, so
"fails if and only if the input signal is empty" is false (the source has
no failure path at all and raises no `EmptySignal` error). -/
theorem resampleAudio_empty_counterexample :
    resampleAudio (AudioBuffer.mk 8000 0 [[]]) 16000 = [] := by
  norm_num [resampleAudio, jsRound]

/-- C6 amended: `resampleAudio` never fails for any sample-rate ratio, the
empty signal included: an empty well-formed input yields the empty output
rather than an `EmptySignal` error. -/
theorem resampleAudio_empty_input (buf : AudioBuffer) (targetRate : ℕ)
    (hr : 0 < buf.sampleRate) (hwf : wellFormed buf) (h0 : buf.length = 0) :
    resampleAudio buf targetRate = [] := by
  have hl := resampleAudio_length_aux buf targetRate hr hwf
  rw [h0] at hl
  norm_num [jsRound] at hl
  exact hl

/-- C6 witness: the amended statement applied to a concrete empty buffer. -/
theorem resampleAudio_empty_input_witness :
    0 < (AudioBuffer.mk 8000 0 [[], []]).sampleRate ∧
    wellFormed (AudioBuffer.mk 8000 0 [[], []]) ∧
    (AudioBuffer.mk 8000 0 [[], []]).length = 0 ∧
    resampleAudio (AudioBuffer.mk 8000 0 [[], []]) 16000 = [] := by
  have hwf : wellFormed (AudioBuffer.mk 8000 0 [[], []]) := by
    constructor
    · exact List.cons_ne_nil _ _
    · intro c hc
      fin_cases hc <;> rfl
  exact ⟨by norm_num, hwf, rfl, resampleAudio_empty_input _ 16000 (by norm_num) hwf rfl⟩

/-! ### Claim theorems: duration normalisation -/

/-- C8: for every non-empty input and every truncation offset in
`[0, length - targetLength]`, `normalizeAudioLength` returns a signal of
exactly `targetLength = Math.floor(sampleRate * targetDuration)` samples,
in the padding, truncation and identity branches alike. -/
theorem normalizeAudioLength_length (audio : List ℚ) (sr : ℕ) (dur : ℚ) (off : ℕ)
    (hne : audio ≠ []) (hoff : off ≤ audio.length - targetLengthOf sr dur) :
    ∃ r, normalizeAudioLength audio sr dur off = some r ∧
      r.length = targetLengthOf sr dur := by
  have hlen0 : audio.length ≠ 0 := by
    simpa using fun h => hne (List.length_eq_zero.mp h)
  unfold normalizeAudioLength
  by_cases h1 : audio.length < targetLengthOf sr dur
  · rw [if_pos h1]
    unfold jsRepeats
    rw [if_neg hlen0]
    exact ⟨_, rfl, padLoop_length audio _ _ (le_of_lt h1)⟩
  · rw [if_neg h1]
    by_cases h2 : targetLengthOf sr dur < audio.length
    · rw [if_pos h2]
      refine ⟨_, rfl, ?_⟩
      simp only [List.length_take, List.length_drop]
      omega
    · rw [if_neg h2]
      exact ⟨audio, rfl, by omega⟩

/-- C8 witness: truncating `[1, 2, 3]` at 2 Hz to 1 second with the maximal
random offset 1 yields exactly 2 samples. -/
theorem normalizeAudioLength_length_witness :
    ([(1 : ℚ), 2, 3] ≠ []) ∧
    1 ≤ [(1 : ℚ), 2, 3].length - targetLengthOf 2 1 ∧
    ∃ r, normalizeAudioLength [(1 : ℚ), 2, 3] 2 1 1 = some r ∧
      r.length = targetLengthOf 2 1 := by
  have ht : targetLengthOf 2 1 = 2 := by
    norm_num [targetLengthOf]
    rfl
  exact ⟨by simp, by rw [ht]; decide, normalizeAudioLength_length [(1 : ℚ), 2, 3] 2 1 1 (by simp)
    (by rw [ht]; decide)⟩

/-- C10: with a positive target length, `normalizeAudioLength` terminates
(returns a value) exactly when the input signal is non-empty; on the empty
signal the padding branch's tile count `Math.ceil(targetLength / 0)` is
unbounded and the tiling loop never terminates. -/
theorem normalizeAudioLength_terminates_iff (audio : List ℚ) (sr : ℕ) (dur : ℚ) (off : ℕ)
    (h : 0 < targetLengthOf sr dur) :
    (normalizeAudioLength audio sr dur off).isSome ↔ audio ≠ [] := by
  by_cases h0 : audio.length = 0
  · have he : audio = [] := List.length_eq_zero.mp h0
    subst he
    simp only [normalizeAudioLength, jsRepeats]
    simp [h]
  · have hne : audio ≠ [] := fun he => h0 (by simp [he])
    refine iff_of_true ?_ hne
    unfold normalizeAudioLength jsRepeats
    by_cases h1 : audio.length < targetLengthOf sr dur
    · simp [h1, h0]
    · by_cases h2 : targetLengthOf sr dur < audio.length
      · simp [h1, h2]
      · simp [h1, h2]

/-- C10 witness: the termination criterion applied to a one-sample signal
at the concrete positive target length 2. -/
theorem normalizeAudioLength_terminates_witness :
    0 < targetLengthOf 2 1 ∧
    ((normalizeAudioLength [(1 : ℚ)] 2 1 0).isSome ↔ [(1 : ℚ)] ≠ []) :=
  ⟨by norm_num [targetLengthOf],
   normalizeAudioLength_terminates_iff [(1 : ℚ)] 2 1 0
     (by norm_num [targetLengthOf])⟩

/-! ### Claim theorems: WAV encoding -/

/-- C3 counterexample: the sample `0.5` is encoded as `16383`, whereas
`round(clamp(0.5, -1, 1) * 32767) = round(16383.5) = 16384` — the
`Int16Array` store truncates toward zero, it does not round. -/
theorem audioBufferToWav_round_counterexample :
    audioBufferToWavData (AudioBuffer.mk 8000 1 [[1 / 2]]) = [16383] ∧
    round ((max (-1) (min 1 ((1 : ℚ) / 2))) * 32767) = 16384 := by
  constructor
  · norm_num [audioBufferToWavData, wavSample, ratTrunc, List.range_succ, min_def, max_def]
  · norm_num [min_def, max_def, round_eq]

/-- C3 amended: for the supported layouts (mono and stereo), the PCM
payload interleaves per-channel samples in channel order, every sample
converted as truncate-toward-zero of `clamp(sample, -1, 1) * 32767`
(not rounded; layouts with three or more channels are not interleaved by
the source, which fills only channel 0). -/
theorem audioBufferToWavData_interleave (buf : AudioBuffer) (hwf : wellFormed buf)
    (hch : buf.channels.length = 1 ∨ buf.channels.length = 2) :
    audioBufferToWavData buf =
      interleaveChannels buf.length (buf.channels.map (List.map wavSample)) := by
  obtain ⟨hne, hlen⟩ := hwf
  rcases hch with h1 | h2
  · obtain ⟨c, hc⟩ := List.length_eq_one.mp h1
    have hcl : c.length = buf.length := hlen c (by rw [hc]; exact List.mem_singleton.mpr rfl)
    unfold audioBufferToWavData interleaveChannels
    rw [hc]
    rw [if_neg (by simp)]
    simp only [List.map_cons, List.map_nil, List.getD_cons_zero, List.length_cons,
      List.length_nil, Nat.zero_add, Nat.mul_one, Nat.sub_self, List.replicate_zero,
      List.append_nil]
    rw [flatMap_singleton_eq_map]
    apply List.map_congr_left
    intro i hi
    rw [List.mem_range] at hi
    exact (getD_map_of_lt wavSample c i (by omega) 0 0).symm
  · obtain ⟨l, r, hc⟩ := List.length_eq_two.mp h2
    have hll : l.length = buf.length := hlen l (by rw [hc]; simp)
    have hrl : r.length = buf.length := hlen r (by rw [hc]; simp)
    unfold audioBufferToWavData interleaveChannels
    rw [hc, if_pos (by simp)]
    simp only [List.map_cons, List.map_nil, List.getD_cons_zero, List.getD_cons_succ]
    apply flatMap_congr_mem
    intro i hi
    rw [List.mem_range] at hi
    rw [getD_map_of_lt wavSample l i (by omega) 0 0,
      getD_map_of_lt wavSample r i (by omega) 0 0]

/-- C3 witness: the amended statement applied to a concrete two-sample
stereo buffer. -/
theorem audioBufferToWavData_interleave_witness :
    wellFormed (AudioBuffer.mk 4 2 [[1 / 2, -1 / 2], [1 / 4, 2]]) ∧
    ((AudioBuffer.mk 4 2 [[(1 : ℚ) / 2, -1 / 2], [1 / 4, 2]]).channels.length = 1 ∨
      (AudioBuffer.mk 4 2 [[(1 : ℚ) / 2, -1 / 2], [1 / 4, 2]]).channels.length = 2) ∧
    audioBufferToWavData (AudioBuffer.mk 4 2 [[1 / 2, -1 / 2], [1 / 4, 2]]) =
      interleaveChannels (AudioBuffer.mk 4 2 [[(1 : ℚ) / 2, -1 / 2], [1 / 4, 2]]).length
        ((AudioBuffer.mk 4 2 [[(1 : ℚ) / 2, -1 / 2], [1 / 4, 2]]).channels.map
          (List.map wavSample)) := by
  have hwf : wellFormed (AudioBuffer.mk 4 2 [[1 / 2, -1 / 2], [1 / 4, 2]]) := by
    constructor
    · exact List.cons_ne_nil _ _
    · intro c hc
      fin_cases hc <;> rfl
  exact ⟨hwf, Or.inr rfl, audioBufferToWavData_interleave _ hwf (Or.inr rfl)⟩

/-! ### Feature extraction: shared run and shape lemmas -/

theorem extractFeatures_eq (cosF lg : ℚ → ℚ) (piQ : ℚ) (fftF : List JSNum → List JSNum)
    (audioData : List ℚ) (n_fft hop n_mels target : ℕ)
    (hhop : hop ≠ 0) (heven : n_fft % 2 = 0) (hlen : n_fft ≤ audioData.length) :
    extractFeatures cosF lg piQ fftF audioData n_fft hop n_mels target =
      some (resizeStep (normalizeStep (transposeStep n_mels
        (numFramesJS audioData.length n_fft hop).toNat
        ((List.range (numFramesJS audioData.length n_fft hop).toNat).map (fun i =>
          melFrameOf lg (powerSpectrumOf fftF
            (hannWindowedFrame cosF piQ audioData n_fft hop i) n_fft) n_fft n_mels))))
        target) := by
  have h2 : ¬ numFramesJS audioData.length n_fft hop < 0 := by
    have hq : (0 : ℚ) ≤ ((audioData.length : ℚ) - (n_fft : ℚ)) / (hop : ℚ) := by
      apply div_nonneg
      · rw [sub_nonneg]
        exact_mod_cast hlen
      · positivity
    have hf := Int.floor_nonneg.mpr hq
    unfold numFramesJS
    omega
  have h3 : ¬ (0 < (numFramesJS audioData.length n_fft hop).toNat ∧ n_fft % 2 = 1) := by
    rintro ⟨-, hodd⟩
    omega
  unfold extractFeatures
  rw [if_neg hhop, if_neg h2, if_neg h3]

theorem resizeStep_shape (m : List (List JSNum)) (t : ℕ) :
    (resizeStep m t).length = m.length ∧ ∀ row ∈ resizeStep m t, row.length = t := by
  constructor
  · simp [resizeStep]
  · intro row hrow
    simp only [resizeStep, List.mem_map] at hrow
    obtain ⟨r, -, hr⟩ := hrow
    rw [← hr]
    simp

theorem extractFeatures_shape_aux (cosF lg : ℚ → ℚ) (piQ : ℚ) (fftF : List JSNum → List JSNum)
    (audioData : List ℚ) (n_fft hop n_mels target : ℕ)
    (hhop : hop ≠ 0) (heven : n_fft % 2 = 0) (hlen : n_fft ≤ audioData.length) :
    ∃ m, extractFeatures cosF lg piQ fftF audioData n_fft hop n_mels target = some m ∧
      m.length = n_mels ∧ (∀ row ∈ m, row.length = target) ∧
      m.flatten.length = n_mels * target := by
  refine ⟨_, extractFeatures_eq cosF lg piQ fftF audioData n_fft hop n_mels target
    hhop heven hlen, ?_, ?_, ?_⟩
  · rw [(resizeStep_shape _ _).1]
    simp [normalizeStep, transposeStep]
  · exact (resizeStep_shape _ _).2
  · rw [flatten_length_const _ target (resizeStep_shape _ _).2, (resizeStep_shape _ _).1]
    simp [normalizeStep, transposeStep]

/-! ### Claim theorems: feature extraction -/

/-- C2: for every signal long enough for at least one frame and every
admissible parameter choice (`hop ≠ 0` and `n_fft` a power of two at least
2, as the external FFT requires), `extractFeatures` yields a matrix of
exactly `n_mels` band rows of `target` time steps each — flattened,
exactly `n_mels * target` values with bands on the first axis. -/
theorem extractFeatures_shape (cosF lg : ℚ → ℚ) (piQ : ℚ) (fftF : List JSNum → List JSNum)
    (audioData : List ℚ) (n_fft hop n_mels target : ℕ)
    (hhop : hop ≠ 0) (hpow : ∃ k : ℕ, n_fft = 2 ^ (k + 1)) (hlen : n_fft ≤ audioData.length) :
    ∃ m, extractFeatures cosF lg piQ fftF audioData n_fft hop n_mels target = some m ∧
      m.length = n_mels ∧ (∀ row ∈ m, row.length = target) ∧
      m.flatten.length = n_mels * target := by
  obtain ⟨k, hk⟩ := hpow
  have heven : n_fft % 2 = 0 := by
    subst hk
    rw [pow_succ]
    exact Nat.mul_mod_left _ _
  exact extractFeatures_shape_aux cosF lg piQ fftF audioData n_fft hop n_mels target
    hhop heven hlen

/-- C2 witness: a concrete two-sample signal with `n_fft = 2`, `hop = 1`,
one band and one time step produces a `1 × 1` matrix. -/
theorem extractFeatures_shape_witness :
    (1 : ℕ) ≠ 0 ∧ (∃ k : ℕ, (2 : ℕ) = 2 ^ (k + 1)) ∧ (2 : ℕ) ≤ ([0, 0] : List ℚ).length ∧
    ∃ m, extractFeatures (fun _ => (0 : ℚ)) (fun _ => (0 : ℚ)) 0
        (fun _ => ([] : List JSNum)) [0, 0] 2 1 1 1 = some m ∧
      m.length = 1 ∧ (∀ row ∈ m, row.length = 1) ∧ m.flatten.length = 1 * 1 :=
  ⟨one_ne_zero, ⟨0, rfl⟩, by decide,
   extractFeatures_shape (fun _ => (0 : ℚ)) (fun _ => (0 : ℚ)) 0
     (fun _ => ([] : List JSNum)) [0, 0] 2 1 1 1 one_ne_zero ⟨0, rfl⟩ (by decide)⟩

/-- C4 counterexample: with `target_time_steps = 0` (a zero configuration
value) `extractFeatures` does not fail at all — it returns a tensor value,
so "fails with an `InvalidParameters` error when any of the four
parameters is zero" is false of the source. -/
theorem extractFeatures_zero_param_counterexample :
    (extractFeatures (fun _ => (0 : ℚ)) (fun _ => (0 : ℚ)) 0 (fun _ => ([] : List JSNum))
      [0, 0] 2 1 1 0).isSome = true := by
  rw [extractFeatures_eq (fun _ => (0 : ℚ)) (fun _ => (0 : ℚ)) 0 (fun _ => ([] : List JSNum))
    [0, 0] 2 1 1 0 one_ne_zero rfl (by decide)]
  rfl

/-- C4 amended: `extractFeatures` performs no parameter validation and
raises no typed `InvalidParameters` error: a zero band count or zero
target time-step count is processed normally and yields an empty tensor
(the flattened output is empty when `target = 0`, and the statement is
proved for every `n_mels`, zero included), while a zero hop length aborts
with an untyped runtime failure (an invalid array length from a
non-finite frame count), modelled as `none`. -/
theorem extractFeatures_no_validation (cosF lg : ℚ → ℚ) (piQ : ℚ)
    (fftF : List JSNum → List JSNum) (audioData : List ℚ) (n_fft hop n_mels : ℕ)
    (hhop : hop ≠ 0) (hpow : ∃ k : ℕ, n_fft = 2 ^ (k + 1)) (hlen : n_fft ≤ audioData.length) :
    (∃ m, extractFeatures cosF lg piQ fftF audioData n_fft hop n_mels 0 = some m ∧
      m.flatten = []) ∧
    (∀ t, extractFeatures cosF lg piQ fftF audioData n_fft 0 n_mels t = none) := by
  obtain ⟨k, hk⟩ := hpow
  have heven : n_fft % 2 = 0 := by
    subst hk
    rw [pow_succ]
    exact Nat.mul_mod_left _ _
  constructor
  · obtain ⟨m, hm, -, -, hflat⟩ := extractFeatures_shape_aux cosF lg piQ fftF audioData
      n_fft hop n_mels 0 hhop heven hlen
    refine ⟨m, hm, List.length_eq_zero.mp ?_⟩
    rw [hflat, Nat.mul_zero]
  · intro t
    unfold extractFeatures
    rw [if_pos rfl]

/-- C4 witness: the amended statement applied at `n_fft = 2`, `hop = 1`,
one band, on a concrete two-sample signal. -/
theorem extractFeatures_no_validation_witness :
    (1 : ℕ) ≠ 0 ∧ (∃ k : ℕ, (2 : ℕ) = 2 ^ (k + 1)) ∧ (2 : ℕ) ≤ ([0, 0] : List ℚ).length ∧
    ((∃ m, extractFeatures (fun _ => (0 : ℚ)) (fun _ => (0 : ℚ)) 0
        (fun _ => ([] : List JSNum)) [0, 0] 2 1 1 0 = some m ∧ m.flatten = []) ∧
      (∀ t, extractFeatures (fun _ => (0 : ℚ)) (fun _ => (0 : ℚ)) 0
        (fun _ => ([] : List JSNum)) [0, 0] 2 0 1 t = none)) :=
  ⟨one_ne_zero, ⟨0, rfl⟩, by decide,
   extractFeatures_no_validation (fun _ => (0 : ℚ)) (fun _ => (0 : ℚ)) 0
     (fun _ => ([] : List JSNum)) [0, 0] 2 1 1 one_ne_zero ⟨0, rfl⟩ (by decide)⟩

/-- C1: the global min-max normalisation is not guarded — on an all-equal
matrix (here the 2×2 zero matrix, the log-spectrogram of silence) every
cell becomes `(x - min) / (max - min) = 0/0`, a non-finite `NaN`, not the
value `0` the contract prescribes. -/
theorem normalizeStep_degenerate_counterexample :
    normalizeStep [[some 0, some 0], [some 0, some 0]] =
      [[none, none], [none, none]] ∧ (none : JSNum) ≠ some 0 := by
  constructor
  · norm_num [normalizeStep, jsMinOf, jsMaxOf, jdiv, jsub, jmin, jmax]
  · simp

/-- C5: with `target_time_steps = 1` the resize step computes source
position `0 * (srcLength - 1) / (1 - 1) = 0/0`, a `NaN` index, and the
single output cell is non-finite — not the first source sample `some 1`
the claim prescribes. -/
theorem resizeStep_single_step_counterexample :
    resizeStep [[some 1, some 2]] 1 = [[none]] ∧ (none : JSNum) ≠ some 1 := by
  constructor
  · norm_num [resizeStep, jdiv, List.range_succ]
  · simp
